import Mathlib

/-!
Verification of the two scripts of this repository:
`youdao_to_excel.py` (scraper) and `excel_to_anki_append.py` (importer).

Python strings are embedded as `List Char`.  `str.lower` and `str.strip`
are modelled with Lean's `Char.toLower` / `Char.isWhitespace`, which cover
the ASCII range the word lists use.  Network and HTML-library calls
(`requests.get`, BeautifulSoup selectors, AnkiConnect responses) are
modelled as explicit oracles passed to the embedded functions, so that
every function stays pure and executable.
-/

abbrev Str := List Char

/-- `clean_invisibles` (youdao_to_excel.py): removes every occurrence of
U+202A, U+202B and U+FEFF (single-character `str.replace` = filter). -/
def clean_invisibles (s : Str) : Str :=
  s.filter (fun c => !(c == '\u202a' || c == '\u202b' || c == '\ufeff'))

/-- Python `str.strip()`: drop whitespace from both ends. -/
def pyStrip (s : Str) : Str :=
  ((s.dropWhile Char.isWhitespace).reverse.dropWhile Char.isWhitespace).reverse

/-- Python `str.lower()` (ASCII model). -/
def lowerStr (s : Str) : Str := s.map Char.toLower

/-- Python `str.startswith("#")`. -/
def startsWithHash : Str → Bool
  | [] => false
  | c :: _ => c == '#'

/-- The per-line preprocessing of `load_words`:
`clean_invisibles(line).strip()`. -/
def processLine (line : Str) : Str := pyStrip (clean_invisibles line)

/-- The filter of `load_words`: a processed line is kept unless it is
empty or starts with `#`. -/
def keptLine (w : Str) : Bool := !(w.isEmpty || startsWithHash w)

/-- The processed lines that survive the blank/comment filter of
`load_words`, in input order. -/
def processedLines (lines : List Str) : List Str :=
  (lines.map processLine).filter keptLine

/-- Generic first-occurrence deduplication keyed by `f`, with an
accumulator of already-seen keys.  This is the `seen` set + append loop
pattern used by `load_words`, by the `_key`-based pandas dedup of the
importer, and by the `seen`/`uniq` loop of `parse_definitions`. -/
def dedupeBy (f : α → Str) : List α → List Str → List α
  | [], _ => []
  | x :: xs, seen =>
    if f x ∈ seen then dedupeBy f xs seen
    else x :: dedupeBy f xs (f x :: seen)

/-- The loop body of `load_words` (youdao_to_excel.py, lines 42-53):
per line clean + strip, skip blanks and `#` comments, then deduplicate
case-insensitively keeping the first occurrence. -/
def load_words_go : List Str → List Str → List Str
  | [], _ => []
  | line :: rest, seen_ci =>
    if (processLine line).isEmpty || startsWithHash (processLine line) then
      load_words_go rest seen_ci
    else if lowerStr (processLine line) ∈ seen_ci then
      load_words_go rest seen_ci
    else
      processLine line :: load_words_go rest (lowerStr (processLine line) :: seen_ci)

/-- `load_words` (youdao_to_excel.py): the file is given as its list of
lines (`splitlines`). -/
def load_words (lines : List Str) : List Str := load_words_go lines []

theorem load_words_go_eq_dedupeBy (lines : List Str) :
    ∀ seen, load_words_go lines seen =
      dedupeBy lowerStr ((lines.map processLine).filter keptLine) seen := by
  induction lines with
  | nil => intro seen; simp [load_words_go, dedupeBy]
  | cons line rest ih =>
    intro seen
    by_cases hk : (processLine line).isEmpty || startsWithHash (processLine line)
    · simp [load_words_go, hk, keptLine, ih]
    · by_cases hs : lowerStr (processLine line) ∈ seen
      · simp [load_words_go, hk, hs, keptLine, dedupeBy, ih]
      · simp [load_words_go, hk, hs, keptLine, dedupeBy, ih]

theorem load_words_eq_dedupeBy (lines : List Str) :
    load_words lines = dedupeBy lowerStr (processedLines lines) [] :=
  load_words_go_eq_dedupeBy lines []

/-! Generic facts about `dedupeBy`. -/

theorem dedupeBy_sublist (f : α → Str) :
    ∀ (xs : List α) (seen : List Str), (dedupeBy f xs seen).Sublist xs := by
  intro xs
  induction xs with
  | nil => intro seen; simp [dedupeBy]
  | cons x rest ih =>
    intro seen
    by_cases h : f x ∈ seen
    · simpa [dedupeBy, h] using (ih seen).cons x
    · simpa [dedupeBy, h] using (ih (f x :: seen)).cons₂ x

theorem dedupeBy_not_seen (f : α → Str) :
    ∀ (xs : List α) (seen : List Str) (y : α),
      y ∈ dedupeBy f xs seen → f y ∉ seen := by
  intro xs
  induction xs with
  | nil => intro seen y hy; simp [dedupeBy] at hy
  | cons x rest ih =>
    intro seen y hy
    by_cases h : f x ∈ seen
    · exact ih seen y (by simpa [dedupeBy, h] using hy)
    · rw [dedupeBy, if_neg h] at hy
      rcases List.mem_cons.mp hy with rfl | hy
      · exact h
      · intro hmem
        exact ih (f x :: seen) y hy (List.mem_cons_of_mem _ hmem)

theorem dedupeBy_keys_nodup (f : α → Str) :
    ∀ (xs : List α) (seen : List Str), ((dedupeBy f xs seen).map f).Nodup := by
  intro xs
  induction xs with
  | nil => intro seen; simp [dedupeBy]
  | cons x rest ih =>
    intro seen
    by_cases h : f x ∈ seen
    · simpa [dedupeBy, h] using ih seen
    · rw [dedupeBy, if_neg h]
      simp only [List.map_cons, List.nodup_cons]
      refine ⟨?_, ih (f x :: seen)⟩
      intro hmem
      rcases List.mem_map.mp hmem with ⟨y, hy, hfy⟩
      exact dedupeBy_not_seen f rest (f x :: seen) y hy (hfy ▸ List.mem_cons_self _ _)

theorem dedupeBy_cover (f : α → Str) :
    ∀ (xs : List α) (seen : List Str) (x : α), x ∈ xs →
      f x ∈ seen ∨ f x ∈ (dedupeBy f xs seen).map f := by
  intro xs
  induction xs with
  | nil => intro seen x hx; simp at hx
  | cons x0 rest ih =>
    intro seen x hx
    by_cases h : f x0 ∈ seen
    · rw [dedupeBy, if_pos h]
      rcases List.mem_cons.mp hx with rfl | hx
      · exact Or.inl h
      · exact ih seen x hx
    · rw [dedupeBy, if_neg h]
      rcases List.mem_cons.mp hx with rfl | hx
      · exact Or.inr (by simp)
      · rcases ih (f x0 :: seen) x hx with hmem | hmem
        · rcases List.mem_cons.mp hmem with heq | hmem
          · exact Or.inr (by simp [heq])
          · exact Or.inl hmem
        · exact Or.inr (by simp [hmem])

theorem dedupeBy_first_occurrence (f : α → Str) :
    ∀ (xs : List α) (seen : List Str) (y : α), y ∈ dedupeBy f xs seen →
      xs.find? (fun x => f x == f y) = some y := by
  intro xs
  induction xs with
  | nil => intro seen y hy; simp [dedupeBy] at hy
  | cons x0 rest ih =>
    intro seen y hy
    by_cases h : f x0 ∈ seen
    · rw [dedupeBy, if_pos h] at hy
      have hne : f y ∉ seen := dedupeBy_not_seen f rest seen y hy
      have hxy : ¬ (f x0 == f y) = true := by
        intro hbeq
        exact hne (eq_of_beq hbeq ▸ h)
      rw [List.find?_cons_of_neg _ (by simpa using hxy)]
      exact ih seen y hy
    · rw [dedupeBy, if_neg h] at hy
      rcases List.mem_cons.mp hy with rfl | hy
      · rw [List.find?_cons_of_pos _ (by simp)]
      · have hne : f y ∉ f x0 :: seen := dedupeBy_not_seen f rest (f x0 :: seen) y hy
        have hxy : ¬ (f x0 == f y) = true := by
          intro hbeq
          exact hne ((eq_of_beq hbeq) ▸ List.mem_cons_self _ _)
        rw [List.find?_cons_of_neg _ (by simpa using hxy)]
        exact ih (f x0 :: seen) y hy

/-! ### Definition fetcher (youdao_to_excel.py, `fetch_html`) -/

/-- `RETRY` constant of youdao_to_excel.py. -/
def RETRY : Nat := 2

/-- Outcome of one `requests.get` attempt: an HTTP response with a status
code and body, or a raised `requests.RequestException`. -/
inductive FetchOutcome
  | resp (status : Nat) (body : Str)
  | exn
deriving DecidableEq

/-- An attempt counts as success exactly when it is an HTTP 200 response. -/
def isSuccess : FetchOutcome → Bool
  | .resp s _ => s == 200
  | .exn => false

/-- The retry loop of `fetch_html`: `fuel` remaining attempts, `i` attempts
already made; `oracle i` is what the network does on attempt `i`.  Returns
the body (empty when all attempts are exhausted) together with the number
of attempts performed.  Raising is impossible by construction: the
`except` arm of the source falls through to the next attempt, and the
loop ends in `return ""`. -/
def fetch_go (oracle : Nat → FetchOutcome) : Nat → Nat → Str × Nat
  | 0, i => ([], i)
  | fuel + 1, i =>
    match oracle i with
    | .resp s body => if s = 200 then (body, i + 1) else fetch_go oracle fuel (i + 1)
    | .exn => fetch_go oracle fuel (i + 1)

/-- `fetch_html` (youdao_to_excel.py): `for attempt in range(RETRY + 1)`. -/
def fetch_html (oracle : Nat → FetchOutcome) : Str × Nat :=
  fetch_go oracle (RETRY + 1) 0

theorem fetch_go_spec (oracle : Nat → FetchOutcome) :
    ∀ (fuel i : Nat),
      (fetch_go oracle fuel i).2 ≤ i + fuel ∧
      ((∀ j, i ≤ j → j < i + fuel → isSuccess (oracle j) = false) →
        fetch_go oracle fuel i = ([], i + fuel)) := by
  intro fuel
  induction fuel with
  | zero =>
    intro i
    exact ⟨Nat.le_refl i, fun _ => rfl⟩
  | succ fuel ih =>
    intro i
    constructor
    · cases h : oracle i with
      | resp s body =>
        by_cases hs : s = 200
        · simp only [fetch_go, h, if_pos hs]
          omega
        · have hb := (ih (i + 1)).1
          simp only [fetch_go, h, if_neg hs]
          omega
      | exn =>
        have hb := (ih (i + 1)).1
        simp only [fetch_go, h]
        omega
    · intro hall
      cases h : oracle i with
      | resp s body =>
        by_cases hs : s = 200
        · exfalso
          have hfail := hall i (Nat.le_refl i) (by omega)
          rw [h] at hfail
          simp [isSuccess, hs] at hfail
        · have hrec := (ih (i + 1)).2 (fun j hj1 hj2 => hall j (by omega) (by omega))
          simp only [fetch_go, h, if_neg hs, hrec]
          have harith : i + 1 + fuel = i + (fuel + 1) := by omega
          rw [harith]
      | exn =>
        have hrec := (ih (i + 1)).2 (fun j hj1 hj2 => hall j (by omega) (by omega))
        simp only [fetch_go, h, hrec]
        have harith : i + 1 + fuel = i + (fuel + 1) := by omega
        rw [harith]

/-! ### Definition parser (youdao_to_excel.py, `parse_definitions`) -/

/-- `" ".flatten(text.split())`: collapse whitespace runs to single spaces
and trim. -/
def normText (s : Str) : Str :=
  List.intercalate [' '] ((List.splitOnP Char.isWhitespace s).filter (fun w => !w.isEmpty))

/-- One selector strategy of `parse_definitions`: normalise each
extracted text and keep only the non-empty ones. -/
def collectTexts (ts : List Str) : List Str :=
  (ts.map normText).filter (fun t => !t.isEmpty)

/-- The BeautifulSoup selector results for one page: the texts of the
`li` items under `#phrsListTab div.trans-container ul` when
`#phrsListTab` is present, the texts of all `div.trans-container ul li`
items, and the texts of the Collins `p` items. -/
structure Soup where
  phrs : Option (List Str)
  transLi : List Str
  collins : List Str

/-- The strategy cascade of `parse_definitions` before dedup/truncation:
primary `#phrsListTab` block, then all `div.trans-container ul li`, then
the first 3 Collins paragraphs; each later strategy only runs when the
previous ones produced nothing. -/
def strategy_defs (soup : Soup) : List Str :=
  let d1 := match soup.phrs with
    | some ts => collectTexts ts
    | none => []
  let d2 := if d1.isEmpty then collectTexts soup.transLi else d1
  if d2.isEmpty then collectTexts (soup.collins.take 3) else d2

/-- `parse_definitions` (youdao_to_excel.py): empty input short-circuits
to `[]`; otherwise run the strategy cascade, drop exact-text repeats
keeping the first occurrence, and truncate to at most 5 entries. -/
def parse_definitions (html : Str) (soup : Soup) : List Str :=
  if html.isEmpty then []
  else (dedupeBy id (strategy_defs soup) []).take 5

/-- `get_youdao_definition` (youdao_to_excel.py): newline-join the parsed
definitions, empty string when there are none. -/
def get_youdao_definition (html : Str) (soup : Soup) : Str :=
  if (parse_definitions html soup).isEmpty then []
  else List.intercalate ['\n'] (parse_definitions html soup)

/-! ### Python `str.replace` and the scraper row loop -/

/-- Python `s.replace(pat, repl)` for non-empty `pat`: scan left to
right, at a match emit `repl` and skip the match, otherwise emit one
character.  `fuel` bounds the number of scan steps (each step consumes at
least one character, so `fuel = s.length` suffices). -/
def strReplaceFuel (pat repl : Str) : Nat → Str → Str
  | _, [] => []
  | 0, s => s
  | fuel + 1, c :: rest =>
    if pat ≠ [] ∧ (c :: rest).take pat.length = pat then
      repl ++ strReplaceFuel pat repl fuel ((c :: rest).drop pat.length)
    else
      c :: strReplaceFuel pat repl fuel rest

/-- Python `s.replace(pat, repl)` (non-empty `pat`). -/
def strReplace (pat repl s : Str) : Str := strReplaceFuel pat repl s.length s

/-- The definition clean-up of the scraper `main` loop:
`definition.replace(" | ", "\n").replace("|", "\n")`. -/
def pipe_clean (s : Str) : Str :=
  strReplace ['|'] ['\n'] (strReplace [' ', '|', ' '] ['\n'] s)

/-- The row-accumulation loop of the scraper `main`: each word is paired
with its fetched-and-cleaned definition; `page` maps a word to the HTML
and selector results its lookup produced. -/
def scrape_rows (words : List Str) (page : Str → Str × Soup) : List (Str × Str) :=
  words.map (fun w => (w, pipe_clean (get_youdao_definition (page w).1 (page w).2)))

theorem pipe_not_mem_strReplaceFuel (repl : Str) (hrepl : '|' ∉ repl) :
    ∀ (fuel : Nat) (s : Str), s.length ≤ fuel →
      '|' ∉ strReplaceFuel ['|'] repl fuel s := by
  intro fuel
  induction fuel with
  | zero =>
    intro s hs
    have hnil : s = [] := List.length_eq_zero.mp (Nat.le_zero.mp hs)
    subst hnil
    simp [strReplaceFuel]
  | succ fuel ih =>
    intro s hs
    match s with
    | [] => simp [strReplaceFuel]
    | c :: rest =>
      by_cases hc : c = '|'
      · subst hc
        have hcond : (['|'] : Str) ≠ [] ∧ ('|' :: rest).take (['|'] : Str).length = ['|'] := by
          simp
        rw [strReplaceFuel, if_pos hcond]
        intro hmem
        rcases List.mem_append.mp hmem with hmem | hmem
        · exact hrepl hmem
        · exact ih rest (by simpa using hs) hmem
      · have hcond : ¬ ((['|'] : Str) ≠ [] ∧ (c :: rest).take (['|'] : Str).length = ['|']) := by
          simp [hc]
        rw [strReplaceFuel, if_neg hcond]
        intro hmem
        rcases List.mem_cons.mp hmem with heq | hmem
        · exact hc heq.symm
        · exact ih rest (by simpa using hs) hmem

/-- No `'|'` survives `definition.replace(" | ", "\n").replace("|", "\n")`:
the final single-character replacement removes every pipe. -/
theorem pipe_not_mem_pipe_clean (s : Str) : '|' ∉ pipe_clean s :=
  pipe_not_mem_strReplaceFuel ['\n'] (by simp) _ _ (Nat.le_refl _)

/-! ### Importer (excel_to_anki_append.py) -/

/-- `BATCH_SIZE` constant of excel_to_anki_append.py. -/
def BATCH_SIZE : Nat := 50

/-- An AnkiConnect note as built by the importer `main` loop.  The
constant `modelName`/`tags`/duplicate options of the source are fixed
values and are represented by the fields that the claims can observe. -/
structure Note where
  deckName : Str
  front : Str
  back : Str
deriving DecidableEq

/-- `newline_to_html` (excel_to_anki_append.py): CRLF and CR to LF, then
LF to `<br>`. -/
def newline_to_html (s : Str) : Str :=
  strReplace ['\n'] ['<', 'b', 'r', '>']
    (strReplace ['\r'] ['\n'] (strReplace ['\r', '\n'] ['\n'] s))

/-- The `_key` column of the importer: `word.strip().lower()`. -/
def rowKey (r : Str × Str) : Str := lowerStr (pyStrip r.1)

/-- Step 1 of the importer: intra-file dedup,
`df[~df["_key"].duplicated(keep="first")]`. -/
def file_dedupe (rows : List (Str × Str)) : List (Str × Str) :=
  dedupeBy rowKey rows []

/-- `removed_in_file = before - len(df)` after step 1. -/
def removed_in_file (rows : List (Str × Str)) : Nat :=
  rows.length - (file_dedupe rows).length

/-- Step 2/3 of the importer: keep the rows whose key is not among the
(lower-cased, stripped) Front values already present in the deck,
`df[~df["_key"].isin(existing)]`. -/
def filter_existing (rows : List (Str × Str)) (existing : List Str) : List (Str × Str) :=
  rows.filter (fun r => !(decide (rowKey r ∈ existing)))

/-- `removed_in_deck = before - removed_in_file - len(df)` after step 3. -/
def removed_in_deck (rows : List (Str × Str)) (existing : List Str) : Nat :=
  rows.length - removed_in_file rows
    - (filter_existing (file_dedupe rows) existing).length

/-- The note-construction loop of the importer `main`: rows with a blank
(stripped) word are dropped, every other row becomes a `(word, note)`
pair with `Front = word.strip()` and `Back = newline_to_html(definition.strip())`. -/
def build_pairs (deck : Str) (rows : List (Str × Str)) : List (Str × Note) :=
  rows.filterMap (fun r =>
    if (pyStrip r.1).isEmpty then none
    else some (pyStrip r.1,
      { deckName := deck, front := pyStrip r.1, back := newline_to_html (pyStrip r.2) }))

/-- `chunked` (excel_to_anki_append.py): `seq[i:i+size]` slices for
`i = 0, size, 2*size, ...`.  `fuel` bounds the number of produced chunks
(each chunk consumes at least one element, so `fuel = xs.length`
suffices).  The model is meaningful for `size > 0`; at `size = 0` the
Python generator would raise `ValueError` inside `range`. -/
def chunkedFuel : Nat → List α → Nat → List (List α)
  | _, [], _ => []
  | 0, _ :: _, _ => []
  | fuel + 1, x :: xs, size =>
    (x :: xs.take (size - 1)) :: chunkedFuel fuel (xs.drop (size - 1)) size

/-- `chunked seq size` of the source. -/
def chunked (xs : List α) (size : Nat) : List (List α) :=
  chunkedFuel xs.length xs size

/-- `pairs_add`: the `(word, note)` pairs whose `canAddNotes` precheck
answer is `True`. -/
def pairs_add (wn : List (Str × Note)) (mask : List Bool) : List (Str × Note) :=
  ((wn.zip mask).filter (fun p => p.2)).map (fun p => p.1)

/-- `pairs_skip`: the `(word, note)` pairs whose `canAddNotes` precheck
answer is `False`. -/
def pairs_skip (wn : List (Str × Note)) (mask : List Bool) : List (Str × Note) :=
  ((wn.zip mask).filter (fun p => !p.2)).map (fun p => p.1)

/-- The `[重复跳过]` lines printed for `pairs_skip` before any batch is
submitted. -/
def printed_skips (wn : List (Str × Note)) (mask : List Bool) : List Str :=
  (pairs_skip wn mask).map (fun p => p.1)

/-- The batches actually submitted: `chunked(pairs_add, BATCH_SIZE)`. -/
def submission_batches (wn : List (Str × Note)) (mask : List Bool) :
    List (List (Str × Note)) :=
  chunked (pairs_add wn mask) BATCH_SIZE

/-- One per-item value of a successful `addNotes` result list: a numeric
note id, `null`, or any other value (modelled by its string form). -/
inductive ResultVal
  | intId (n : Int)
  | nullv
  | other (s : Str)
deriving DecidableEq

/-- The three per-item outcomes of the batch submitter. -/
inductive ItemClass
  | added
  | dupSkipped
  | failed
deriving DecidableEq

/-- The per-item classification of the `addNotes` success path:
`isinstance(rid, int)` → added, `rid is None` → duplicate-skipped,
anything else → failed. -/
def classify : ResultVal → ItemClass
  | .intId _ => .added
  | .nullv => .dupSkipped
  | .other _ => .failed

/-- An `invoke("addNotes", ...)` response: a result list, an error that
is itself a list of per-item messages, or a non-list error. -/
inductive BatchResp
  | ok (rs : List ResultVal)
  | errList (es : List Str)
  | errStr (e : Str)
deriving DecidableEq

/-- Running totals of the submission phase. -/
structure Totals where
  added : Nat
  skipped : Nat
  failed : Nat
deriving DecidableEq

/-- `"duplicate"`. -/
def dupToken : Str := ['d', 'u', 'p', 'l', 'i', 'c', 'a', 't', 'e']

/-- `add_batch` (excel_to_anki_append.py): classify each item of the
batch response and bump the three totals.  On a list-shaped error, an
item whose message contains `"duplicate"` (case-insensitively) counts as
skipped, otherwise failed; on a non-list error the whole batch counts as
failed; on success each item is classified by `classify`. -/
def add_batch (t : Totals) (bw : List Str) (resp : BatchResp) : Totals :=
  match resp with
  | .errList es =>
    (bw.zip es).foldl
      (fun t p =>
        if dupToken <:+: lowerStr p.2 then
          { t with skipped := t.skipped + 1 }
        else
          { t with failed := t.failed + 1 })
      t
  | .errStr _ => { t with failed := t.failed + bw.length }
  | .ok rs =>
    (bw.zip rs).foldl
      (fun t p =>
        match classify p.2 with
        | .added => { t with added := t.added + 1 }
        | .dupSkipped => { t with skipped := t.skipped + 1 }
        | .failed => { t with failed := t.failed + 1 })
      t

/-- The batch loop of the importer `main`: one `add_batch` call per
submitted batch, consuming one AnkiConnect response per batch. -/
def run_batches_go (t : Totals) : List (List Str) → List BatchResp → Totals
  | [], _ => t
  | _ :: _, [] => t
  | bw :: bs, r :: rs => run_batches_go (add_batch t bw r) bs rs

/-- The final `added_total/skipped_total/failed_total` of a run, starting
from zero and folding `add_batch` over the submitted batches. -/
def run_totals (wn : List (Str × Note)) (mask : List Bool)
    (resps : List BatchResp) : Totals :=
  run_batches_go ⟨0, 0, 0⟩
    ((submission_batches wn mask).map (fun b => b.map (fun p => p.1))) resps

/-- Sum of the three totals. -/
def totalsSum (t : Totals) : Nat := t.added + t.skipped + t.failed

/-! Facts about `chunked`. -/

theorem chunkedFuel_join :
    ∀ (fuel : Nat) (xs : List α) (size : Nat), xs.length ≤ fuel →
      (chunkedFuel fuel xs size).flatten = xs := by
  intro fuel
  induction fuel with
  | zero =>
    intro xs size hxs
    have hnil : xs = [] := List.length_eq_zero.mp (Nat.le_zero.mp hxs)
    subst hnil
    simp [chunkedFuel]
  | succ fuel ih =>
    intro xs size hxs
    match xs with
    | [] => simp [chunkedFuel]
    | x :: rest =>
      have hrec : (rest.drop (size - 1)).length ≤ fuel := by
        have := List.length_drop (size - 1) rest
        simp only [List.length_cons] at hxs
        omega
      simp only [chunkedFuel, List.flatten_cons, ih (rest.drop (size - 1)) size hrec]
      simp [List.take_append_drop]

theorem chunked_join (xs : List α) (size : Nat) : (chunked xs size).flatten = xs :=
  chunkedFuel_join xs.length xs size (Nat.le_refl _)

theorem chunkedFuel_dropLast_length :
    ∀ (fuel : Nat) (xs : List α) (size : Nat), xs.length ≤ fuel → 0 < size →
      ∀ c ∈ (chunkedFuel fuel xs size).dropLast, c.length = size := by
  intro fuel
  induction fuel with
  | zero =>
    intro xs size hxs hpos c hc
    have hnil : xs = [] := List.length_eq_zero.mp (Nat.le_zero.mp hxs)
    subst hnil
    simp [chunkedFuel] at hc
  | succ fuel ih =>
    intro xs size hxs hpos c hc
    match xs with
    | [] => simp [chunkedFuel] at hc
    | x :: rest =>
      have hrec : (rest.drop (size - 1)).length ≤ fuel := by
        have := List.length_drop (size - 1) rest
        simp only [List.length_cons] at hxs
        omega
      rw [chunkedFuel] at hc
      cases htail : chunkedFuel fuel (rest.drop (size - 1)) size with
      | nil => rw [htail] at hc; simp at hc
      | cons c0 cs =>
        rw [htail] at hc
        rw [List.dropLast_cons₂] at hc
        rcases List.mem_cons.mp hc with rfl | hc
        · -- the tail is non-empty, so `rest` still has at least `size - 1` elements
          have hne : rest.drop (size - 1) ≠ [] := by
            intro hnil
            rw [hnil] at htail
            simp [chunkedFuel] at htail
          have hlen : size - 1 ≤ rest.length := by
            by_contra hlt
            push_neg at hlt
            exact hne (List.drop_eq_nil_of_le (Nat.le_of_lt hlt))
          simp only [List.length_cons, List.length_take]
          omega
        · exact ih (rest.drop (size - 1)) size hrec hpos c (htail ▸ hc)

theorem chunked_mem_subset {xs : List α} {size : Nat} {b : List α}
    (hb : b ∈ chunked xs size) : ∀ p ∈ b, p ∈ xs := by
  intro p hp
  have : p ∈ (chunked xs size).flatten := List.mem_flatten.mpr ⟨b, hb, hp⟩
  rwa [chunked_join] at this

/-! ### Claim theorems -/

/-- C1: for every input word list, `load_words` returns each distinct
case-insensitive trimmed key exactly once (the keys of the result are
pairwise distinct and cover every kept line's key), in order of first
appearance keeping the first occurrence's original spelling (the result
is a sublist of the kept processed lines and every returned word is the
first kept line with its key); blank lines and lines starting with `#`
are skipped (every returned word passes the keep-filter).  In
particular, the list `["Apple", "apple", "Banana"]` yields
`["Apple", "Banana"]`. -/
theorem C1_load_words_dedup (lines : List Str) :
    ((load_words lines).map lowerStr).Nodup ∧
    (∀ w ∈ processedLines lines, lowerStr w ∈ (load_words lines).map lowerStr) ∧
    (load_words lines).Sublist (processedLines lines) ∧
    (∀ w ∈ load_words lines,
      (processedLines lines).find? (fun v => lowerStr v == lowerStr w) = some w ∧
      keptLine w = true) ∧
    load_words [['A', 'p', 'p', 'l', 'e'], ['a', 'p', 'p', 'l', 'e'],
        ['B', 'a', 'n', 'a', 'n', 'a']]
      = [['A', 'p', 'p', 'l', 'e'], ['B', 'a', 'n', 'a', 'n', 'a']] := by
  refine ⟨?_, ?_, ?_, ?_, by decide⟩
  · rw [load_words_eq_dedupeBy]
    exact dedupeBy_keys_nodup lowerStr (processedLines lines) []
  · intro w hw
    rw [load_words_eq_dedupeBy]
    rcases dedupeBy_cover lowerStr (processedLines lines) [] w hw with h | h
    · simp at h
    · exact h
  · rw [load_words_eq_dedupeBy]
    exact dedupeBy_sublist lowerStr (processedLines lines) []
  · intro w hw
    rw [load_words_eq_dedupeBy] at hw
    refine ⟨dedupeBy_first_occurrence lowerStr (processedLines lines) [] w hw, ?_⟩
    have hmem : w ∈ processedLines lines :=
      (dedupeBy_sublist lowerStr (processedLines lines) []).subset hw
    exact List.of_mem_filter hmem

theorem C1_witness :
    lowerStr ['a', 'p', 'p', 'l', 'e']
        ∈ (load_words [['A', 'p', 'p', 'l', 'e'], ['a', 'p', 'p', 'l', 'e']]).map lowerStr ∧
    (processedLines [['A', 'p', 'p', 'l', 'e'], ['a', 'p', 'p', 'l', 'e']]).find?
        (fun v => lowerStr v == lowerStr ['A', 'p', 'p', 'l', 'e'])
      = some ['A', 'p', 'p', 'l', 'e'] :=
  ⟨(C1_load_words_dedup [['A', 'p', 'p', 'l', 'e'], ['a', 'p', 'p', 'l', 'e']]).2.1
      ['a', 'p', 'p', 'l', 'e'] (by decide),
   ((C1_load_words_dedup [['A', 'p', 'p', 'l', 'e'], ['a', 'p', 'p', 'l', 'e']]).2.2.2.1
      ['A', 'p', 'p', 'l', 'e'] (by decide)).1⟩

/-- The first spreadsheet row of the C4 scenario:
`("cat", "a feline\nanother meaning")`. -/
def exCatRow1 : Str × Str :=
  (['c', 'a', 't'],
   ['a', ' ', 'f', 'e', 'l', 'i', 'n', 'e', '\n',
    'a', 'n', 'o', 't', 'h', 'e', 'r', ' ', 'm', 'e', 'a', 'n', 'i', 'n', 'g'])

/-- The second spreadsheet row of the C4 scenario: `("cat", "dup")`. -/
def exCatRow2 : Str × Str := (['c', 'a', 't'], ['d', 'u', 'p'])

/-- The C4 scenario spreadsheet. -/
def exCatRows : List (Str × Str) := [exCatRow1, exCatRow2]

/-- C4: intra-file dedup groups rows by trimmed case-insensitive word
key, keeps only the first occurrence of each key (the result has
pairwise-distinct keys covering every input row's key, is a sublist of
the input, and each kept row is the first input row with its key), and
`removed_in_file` accounts exactly for the dropped rows.  In particular
the two `cat` rows keep only the first with `removed_in_file = 1`. -/
theorem C4_file_dedupe_spec (rows : List (Str × Str)) :
    ((file_dedupe rows).map rowKey).Nodup ∧
    (file_dedupe rows).Sublist rows ∧
    (∀ r ∈ rows, rowKey r ∈ (file_dedupe rows).map rowKey) ∧
    (∀ r ∈ file_dedupe rows, rows.find? (fun x => rowKey x == rowKey r) = some r) ∧
    (file_dedupe rows).length + removed_in_file rows = rows.length ∧
    file_dedupe exCatRows = [exCatRow1] ∧ removed_in_file exCatRows = 1 := by
  refine ⟨dedupeBy_keys_nodup rowKey rows [], dedupeBy_sublist rowKey rows [],
    ?_, ?_, ?_, by decide, by decide⟩
  · intro r hr
    rcases dedupeBy_cover rowKey rows [] r hr with h | h
    · simp at h
    · exact h
  · intro r hr
    exact dedupeBy_first_occurrence rowKey rows [] r hr
  · have hle : (file_dedupe rows).length ≤ rows.length :=
      (dedupeBy_sublist rowKey rows []).length_le
    unfold removed_in_file
    omega

theorem C4_witness :
    rowKey exCatRow2 ∈ (file_dedupe exCatRows).map rowKey ∧
    exCatRows.find? (fun x => rowKey x == rowKey exCatRow1) = some exCatRow1 :=
  ⟨(C4_file_dedupe_spec exCatRows).2.2.1 exCatRow2 (by decide),
   (C4_file_dedupe_spec exCatRows).2.2.2.1 exCatRow1 (by decide)⟩

/-- C6: `fetch_html` performs at most `RETRY + 1 = 3` attempts (the
initial attempt plus up to 2 retries), and when every attempt yields a
transport error or a non-200 status it returns the empty string after
exactly 3 attempts.  In the model the function is total, mirroring the
source, whose `except` arm swallows the transport exception and whose
loop ends in `return ""` — nothing can propagate past this boundary. -/
theorem C6_fetch_retry (oracle : Nat → FetchOutcome) :
    (fetch_html oracle).2 ≤ RETRY + 1 ∧
    ((∀ i, i < RETRY + 1 → isSuccess (oracle i) = false) →
      fetch_html oracle = ([], RETRY + 1)) := by
  constructor
  · have h := (fetch_go_spec oracle (RETRY + 1) 0).1
    simpa using h
  · intro hall
    have h := (fetch_go_spec oracle (RETRY + 1) 0).2
      (fun j _ hj => hall j (by omega))
    simpa using h

theorem C6_witness : fetch_html (fun _ => FetchOutcome.exn) = ([], RETRY + 1) :=
  (C6_fetch_retry (fun _ => FetchOutcome.exn)).2 (fun _ _ => rfl)

/-- C7: when no selector strategy yields any (normalised, non-empty)
text — the primary `#phrsListTab` items, the global
`div.trans-container ul li` items, and the first three Collins
paragraphs all produce nothing — `parse_definitions` returns the empty
list; and on empty input markup it returns the empty list outright,
whatever the selector oracle says.  The model is total: no error is
possible. -/
theorem C7_parse_definitions_empty (html : Str) (soup soup2 : Soup)
    (h1 : ∀ ts, soup.phrs = some ts → collectTexts ts = [])
    (h2 : collectTexts soup.transLi = [])
    (h3 : collectTexts (soup.collins.take 3) = []) :
    parse_definitions html soup = [] ∧ parse_definitions [] soup2 = [] := by
  constructor
  · unfold parse_definitions
    by_cases hh : html.isEmpty
    · rw [if_pos hh]
    · rw [if_neg hh]
      have hs : strategy_defs soup = [] := by
        unfold strategy_defs
        cases hp : soup.phrs with
        | none => simp [h2, h3]
        | some ts => simp [h1 ts hp, h2, h3]
      rw [hs]
      rfl
  · rfl

theorem C7_witness :
    parse_definitions ['x'] ⟨none, [], []⟩ = [] ∧
    parse_definitions [] ⟨some [['a']], [['a']], []⟩ = [] :=
  C7_parse_definitions_empty ['x'] ⟨none, [], []⟩ ⟨some [['a']], [['a']], []⟩
    (fun _ h => nomatch h) rfl rfl

/-- C8: for every input, `parse_definitions` returns at most 5 entries,
pairwise distinct, forming a sublist of the raw strategy output (so
order of first occurrence is preserved), and each returned entry is the
first strategy entry with its exact text. -/
theorem C8_parse_definitions_dedup (html : Str) (soup : Soup) :
    (parse_definitions html soup).length ≤ 5 ∧
    (parse_definitions html soup).Nodup ∧
    (parse_definitions html soup).Sublist (strategy_defs soup) ∧
    (∀ d ∈ parse_definitions html soup,
      (strategy_defs soup).find? (fun v => v == d) = some d) := by
  by_cases hh : html.isEmpty
  · simp [parse_definitions, hh]
  · have hrw : parse_definitions html soup
        = (dedupeBy id (strategy_defs soup) []).take 5 := by
      simp [parse_definitions, hh]
    rw [hrw]
    refine ⟨List.length_take_le 5 _, ?_, ?_, ?_⟩
    · have hnd : (dedupeBy id (strategy_defs soup) []).Nodup := by
        have h := dedupeBy_keys_nodup id (strategy_defs soup) []
        simpa using h
      exact (List.take_sublist 5 _).nodup hnd
    · exact (List.take_sublist 5 _).trans (dedupeBy_sublist id (strategy_defs soup) [])
    · intro d hd
      have hd2 : d ∈ dedupeBy id (strategy_defs soup) [] :=
        (List.take_sublist 5 _).subset hd
      exact dedupeBy_first_occurrence id (strategy_defs soup) [] d hd2

/-- The selector oracle of the C8 witness: the fallback strategy yields
the texts `a`, `a`, `b`. -/
def exSoup8 : Soup := ⟨none, [['a'], ['a'], ['b']], []⟩

theorem C8_witness :
    parse_definitions ['x'] exSoup8 = [['a'], ['b']] ∧
    (strategy_defs exSoup8).find? (fun v => v == (['a'] : Str)) = some ['a'] :=
  ⟨by decide,
   (C8_parse_definitions_dedup ['x'] exSoup8).2.2.2 ['a'] (by decide)⟩

/-- C9: for every list and positive batch size, concatenating the
chunks of `chunked` yields exactly the original list in order, and every
chunk except possibly the last has length equal to the batch size. -/
theorem C9_chunked_spec {α : Type} (xs : List α) (size : Nat) (hpos : 0 < size) :
    (chunked xs size).flatten = xs ∧
    ∀ c ∈ (chunked xs size).dropLast, c.length = size :=
  ⟨chunked_join xs size,
   chunkedFuel_dropLast_length xs.length xs size (Nat.le_refl _) hpos⟩

theorem C9_witness :
    (chunked [1, 2, 3] 2).flatten = [1, 2, 3] ∧ ([1, 2] : List Nat).length = 2 :=
  ⟨(C9_chunked_spec [1, 2, 3] 2 (by decide)).1,
   (C9_chunked_spec [1, 2, 3] 2 (by decide)).2 [1, 2] (by decide)⟩

/-- C10: every definition string placed into an output row of the
scraper has passed `replace(" | ", "\n").replace("|", "\n")`, and the
trailing single-character replacement eliminates every `'|'`, so no
definition cell of the output spreadsheet contains a pipe. -/
theorem C10_rows_pipe_free (words : List Str) (page : Str → Str × Soup) :
    ∀ r ∈ scrape_rows words page, '|' ∉ r.2 := by
  intro r hr
  rcases List.mem_map.mp hr with ⟨w, _, rfl⟩
  exact pipe_not_mem_pipe_clean _

/-- The page oracle of the C10 witness: the lookup yields a definition
containing a pipe. -/
def exPage10 : Str → Str × Soup := fun _ => (['x'], ⟨some [['a', '|', 'b']], [], []⟩)

theorem C10_witness :
    '|' ∉ ((['w'], pipe_clean (get_youdao_definition (exPage10 ['w']).1
      (exPage10 ['w']).2)) : Str × Str).2 :=
  C10_rows_pipe_free [['w']] exPage10 _ (by decide)

/-! ### C2: per-item classification of a successful batch response -/

/-- Number of occurrences of the class `c` in a list of per-item
classifications. -/
def classCount (c : ItemClass) : List ItemClass → Nat
  | [] => 0
  | c0 :: l => (if c0 = c then 1 else 0) + classCount c l

theorem classCount_sum (ml : List ItemClass) :
    classCount ItemClass.added ml + classCount ItemClass.dupSkipped ml
      + classCount ItemClass.failed ml = ml.length := by
  induction ml with
  | nil => rfl
  | cons c l ih =>
    cases c <;> simp [classCount, ih] <;> omega

theorem add_batch_ok_eq (t : Totals) (bw : List Str) (rs : List ResultVal) :
    add_batch t bw (BatchResp.ok rs) =
      ⟨t.added + classCount ItemClass.added ((bw.zip rs).map (fun p => classify p.2)),
       t.skipped + classCount ItemClass.dupSkipped ((bw.zip rs).map (fun p => classify p.2)),
       t.failed + classCount ItemClass.failed ((bw.zip rs).map (fun p => classify p.2))⟩ := by
  show (bw.zip rs).foldl _ t = _
  generalize bw.zip rs = l
  induction l generalizing t with
  | nil => simp [classCount]
  | cons p l ih =>
    rw [List.foldl_cons, List.map_cons]
    cases hc : classify p.2 <;>
      simp only [hc, ih, classCount, Totals.mk.injEq, if_pos, if_neg,
        reduceCtorEq, reduceIte] <;>
      refine ⟨by omega, by omega, by omega⟩

/-- The C2 scenario: words `["x", "y", "z"]`. -/
def exBw2 : List Str := [['x'], ['y'], ['z']]

/-- The C2 scenario: batch response `[12345, null, "cannot create note"]`. -/
def exRs2 : List ResultVal :=
  [ResultVal.intId 12345, ResultVal.nullv,
   ResultVal.other ['c', 'a', 'n', 'n', 'o', 't', ' ', 'c', 'r', 'e', 'a', 't', 'e',
     ' ', 'n', 'o', 't', 'e']]

/-- C2: on a successful batch response, each per-item result is
classified into exactly one of added / duplicate-skipped / failed —
added exactly for numeric identifiers, duplicate-skipped exactly for
null, failed exactly for everything else — the three totals are bumped
by exactly the number of items of each class (and the three class
counts partition the batch), and the scenario `[12345, null, "cannot
create note"]` for `["x", "y", "z"]` yields `added = 1, skipped = 1,
failed = 1`. -/
theorem C2_add_batch_classification (t : Totals) (bw : List Str) (rs : List ResultVal) :
    (∀ r : ResultVal,
      (classify r = ItemClass.added ↔ ∃ n, r = ResultVal.intId n) ∧
      (classify r = ItemClass.dupSkipped ↔ r = ResultVal.nullv) ∧
      (classify r = ItemClass.failed ↔
        (∀ n, r ≠ ResultVal.intId n) ∧ r ≠ ResultVal.nullv)) ∧
    add_batch t bw (BatchResp.ok rs) =
      ⟨t.added + classCount ItemClass.added ((bw.zip rs).map (fun p => classify p.2)),
       t.skipped + classCount ItemClass.dupSkipped ((bw.zip rs).map (fun p => classify p.2)),
       t.failed + classCount ItemClass.failed ((bw.zip rs).map (fun p => classify p.2))⟩ ∧
    classCount ItemClass.added ((bw.zip rs).map (fun p => classify p.2))
      + classCount ItemClass.dupSkipped ((bw.zip rs).map (fun p => classify p.2))
      + classCount ItemClass.failed ((bw.zip rs).map (fun p => classify p.2))
      = (bw.zip rs).length ∧
    add_batch ⟨0, 0, 0⟩ exBw2 (BatchResp.ok exRs2) = ⟨1, 1, 1⟩ := by
  refine ⟨?_, add_batch_ok_eq t bw rs, ?_, by decide⟩
  · intro r
    cases r <;> simp [classify]
  · have h := classCount_sum ((bw.zip rs).map (fun p => classify p.2))
    simpa using h

theorem C2_witness :
    (classify ResultVal.nullv = ItemClass.dupSkipped ↔
      ResultVal.nullv = ResultVal.nullv) ∧
    add_batch ⟨0, 0, 0⟩ exBw2 (BatchResp.ok exRs2) = ⟨1, 1, 1⟩ :=
  ⟨((C2_add_batch_classification ⟨0, 0, 0⟩ [] []).1 ResultVal.nullv).2.1,
   (C2_add_batch_classification ⟨0, 0, 0⟩ [] []).2.2.2⟩

/-! ### C3: rows already present in the deck are excluded -/

/-- C3: after intra-file dedup, every row whose trimmed case-insensitive
key is among the deck's existing Front values is excluded by the step-3
filter; the `removed_in_deck` count (`before - removed_in_file -
len(df)` in the source) equals exactly the number of rows so removed;
and every `(word, note)` pair appearing in any submission batch comes
from a surviving row, whose key is not in the existing set — so an
excluded row is never submitted. -/
theorem C3_deck_exclusion (rows : List (Str × Str)) (existing : List Str)
    (deck : Str) (mask : List Bool) :
    (∀ r ∈ file_dedupe rows, rowKey r ∈ existing →
      r ∉ filter_existing (file_dedupe rows) existing) ∧
    removed_in_deck rows existing
      = ((file_dedupe rows).filter (fun r => decide (rowKey r ∈ existing))).length ∧
    (∀ b ∈ submission_batches
        (build_pairs deck (filter_existing (file_dedupe rows) existing)) mask,
      ∀ p ∈ b, ∃ r ∈ filter_existing (file_dedupe rows) existing,
        p.1 = pyStrip r.1 ∧ rowKey r ∉ existing) := by
  refine ⟨?_, ?_, ?_⟩
  · intro r _ hkey hmem
    have h := List.of_mem_filter hmem
    simp only [Bool.not_eq_true', decide_eq_false_iff_not] at h
    exact h hkey
  · have hded : (file_dedupe rows).length ≤ rows.length :=
      (dedupeBy_sublist rowKey rows []).length_le
    have hsplit : (file_dedupe rows).length =
        ((file_dedupe rows).filter (fun r => decide (rowKey r ∈ existing))).length
          + (filter_existing (file_dedupe rows) existing).length := by
      simpa [filter_existing] using
        List.length_eq_length_filter_add
          (l := file_dedupe rows) (fun r => decide (rowKey r ∈ existing))
    unfold removed_in_deck removed_in_file
    omega
  · intro b hb p hp
    have hpa : p ∈ pairs_add
        (build_pairs deck (filter_existing (file_dedupe rows) existing)) mask :=
      chunked_mem_subset hb p hp
    rcases List.mem_map.mp hpa with ⟨q, hq, hq1⟩
    have hq2 := List.mem_filter.mp hq
    have hq3 : q.1 ∈ build_pairs deck (filter_existing (file_dedupe rows) existing) :=
      (List.of_mem_zip hq2.1).1
    rcases List.mem_filterMap.mp hq3 with ⟨r, hr, hsome⟩
    refine ⟨r, hr, ?_, ?_⟩
    · by_cases hblank : (pyStrip r.1).isEmpty
      · rw [if_pos hblank] at hsome
        cases hsome
      · rw [if_neg hblank] at hsome
        have hpair := Option.some.inj hsome
        rw [← hq1, ← hpair]
    · have h := List.of_mem_filter hr
      simp only [Bool.not_eq_true', decide_eq_false_iff_not] at h
      exact h

/-- The C3 witness spreadsheet: one new row and one row whose key is
already in the deck. -/
def exRows3 : List (Str × Str) := [(['D', 'o', 'g'], ['x']), (['c', 'a', 't'], ['y'])]

/-- The C3 witness deck state: `cat` is already present. -/
def exExisting3 : List Str := [['c', 'a', 't']]

/-- The C3 witness deck name. -/
def exDeck3 : Str := ['d']

/-- The C3 witness precheck mask: the surviving note is addable. -/
def exMask3 : List Bool := [true]

theorem C3_witness :
    ((['c', 'a', 't'], ['y']) ∉ filter_existing (file_dedupe exRows3) exExisting3) ∧
    removed_in_deck exRows3 exExisting3
      = ((file_dedupe exRows3).filter
          (fun r => decide (rowKey r ∈ exExisting3))).length :=
  ⟨(C3_deck_exclusion exRows3 exExisting3 exDeck3 exMask3).1
      (['c', 'a', 't'], ['y']) (by decide) (by decide),
   (C3_deck_exclusion exRows3 exExisting3 exDeck3 exMask3).2.1⟩

/-! ### C5: precheck-rejected notes -/

theorem zip_mem_snd_unique {l : List α} :
    ∀ {m : List β}, l.Nodup → ∀ (x : α) (b1 b2 : β),
      (x, b1) ∈ l.zip m → (x, b2) ∈ l.zip m → b1 = b2 := by
  induction l with
  | nil => intro m _ x b1 b2 h1; simp at h1
  | cons a l ih =>
    intro m hnd x b1 b2 h1 h2
    cases m with
    | nil => simp at h1
    | cons c m =>
      have hnd2 := List.nodup_cons.mp hnd
      rw [List.zip_cons_cons] at h1 h2
      rcases List.mem_cons.mp h1 with he1 | h1 <;>
        rcases List.mem_cons.mp h2 with he2 | h2
      · rw [Prod.mk.injEq] at he1 he2
        rw [he1.2, he2.2]
      · rw [Prod.mk.injEq] at he1
        exfalso
        exact hnd2.1 (he1.1 ▸ (List.of_mem_zip h2).1)
      · rw [Prod.mk.injEq] at he2
        exfalso
        exact hnd2.1 (he2.1 ▸ (List.of_mem_zip h1).1)
      · exact ih hnd2.2 x b1 b2 h1 h2

theorem add_batch_sum_le (t : Totals) (bw : List Str) (resp : BatchResp) :
    totalsSum (add_batch t bw resp) ≤ totalsSum t + bw.length := by
  cases resp with
  | errStr e =>
    simp [add_batch, totalsSum]
    omega
  | errList es =>
    have hlen : (bw.zip es).length ≤ bw.length := by
      rw [List.length_zip]
      exact Nat.min_le_left _ _
    have hfold : ∀ (l : List (Str × Str)) (t0 : Totals),
        totalsSum (l.foldl
          (fun t p =>
            if dupToken <:+: lowerStr p.2 then
              { t with skipped := t.skipped + 1 }
            else
              { t with failed := t.failed + 1 }) t0)
          = totalsSum t0 + l.length := by
      intro l
      induction l with
      | nil => intro t0; simp
      | cons p l ih =>
        intro t0
        rw [List.foldl_cons]
        by_cases hd : dupToken <:+: lowerStr p.2
        · rw [if_pos hd, ih]
          simp [totalsSum]
          omega
        · rw [if_neg hd, ih]
          simp [totalsSum]
          omega
    show totalsSum ((bw.zip es).foldl _ t) ≤ totalsSum t + bw.length
    rw [hfold]
    omega
  | ok rs =>
    have hlen : (bw.zip rs).length ≤ bw.length := by
      rw [List.length_zip]
      exact Nat.min_le_left _ _
    have hfold : ∀ (l : List (Str × ResultVal)) (t0 : Totals),
        totalsSum (l.foldl
          (fun t p =>
            match classify p.2 with
            | .added => { t with added := t.added + 1 }
            | .dupSkipped => { t with skipped := t.skipped + 1 }
            | .failed => { t with failed := t.failed + 1 }) t0)
          = totalsSum t0 + l.length := by
      intro l
      induction l with
      | nil => intro t0; simp
      | cons p l ih =>
        intro t0
        rw [List.foldl_cons, ih]
        cases hc : classify p.2 <;> simp [totalsSum] <;> omega
    show totalsSum ((bw.zip rs).foldl _ t) ≤ totalsSum t + bw.length
    rw [hfold]
    omega

theorem run_batches_go_sum_le :
    ∀ (bs : List (List Str)) (rs : List BatchResp) (t : Totals),
      totalsSum (run_batches_go t bs rs) ≤ totalsSum t + (bs.map List.length).sum := by
  intro bs
  induction bs with
  | nil => intro rs t; simp [run_batches_go]
  | cons b bs ih =>
    intro rs t
    cases rs with
    | nil =>
      simp [run_batches_go]
    | cons r rs =>
      have h1 := add_batch_sum_le t b r
      have h2 := ih rs (add_batch t b r)
      simp only [run_batches_go, List.map_cons, List.sum_cons]
      omega

/-- The one note of the C5 counterexample run. -/
def exNote5 : Note := ⟨['d'], ['w'], []⟩

/-- The C5 counterexample candidate list: a single `(word, note)` pair. -/
def exWn5 : List (Str × Note) := [(['w'], exNote5)]

/-- The C5 counterexample precheck mask: the single note is rejected. -/
def exMask5 : List Bool := [false]

/-- C5 counterexample: the claim says a precheck-rejected note "is
reported as skipped in the run's output and aggregate counts".  In the
run with one candidate note, rejected by the precheck, and therefore no
submitted batch (and no AnkiConnect responses), `pairs_skip` has length
1 but the final `skipped_total` aggregate is 0: the rejected note is
printed as skipped yet never added to the aggregate counts, so the
aggregate-count part of the claim is false. -/
theorem C5_counterexample :
    ¬ ((pairs_skip exWn5 exMask5).length ≤ (run_totals exWn5 exMask5 []).skipped) := by
  decide

/-- C5 (amended): every `(word, note)` pair whose precheck answer is
`False` is printed in the skip list and — provided the candidate list
has no duplicate pairs, which holds in the pipeline since step-1 dedup
makes all Front values distinct — never occurs in any submission batch;
but it is NOT counted in the aggregate totals: the final
added/skipped/failed counters are produced only by `add_batch` over the
submitted batches, so their sum never exceeds the number of
precheck-accepted notes. -/
theorem C5_rejected_not_submitted (wn : List (Str × Note)) (mask : List Bool)
    (resps : List BatchResp) (hnd : wn.Nodup) :
    (∀ p ∈ wn.zip mask, p.2 = false →
      (∀ b ∈ submission_batches wn mask, p.1 ∉ b) ∧
      p.1.1 ∈ printed_skips wn mask) ∧
    totalsSum (run_totals wn mask resps) ≤ (pairs_add wn mask).length := by
  constructor
  · rintro ⟨q, qb⟩ hp hfalse
    simp only at hfalse
    subst hfalse
    constructor
    · intro b hb hmem
      have hpa : q ∈ pairs_add wn mask := chunked_mem_subset hb q hmem
      rcases List.mem_map.mp hpa with ⟨q2, hq2, hq1⟩
      have hq3 := List.mem_filter.mp hq2
      have hq4 : (q, true) ∈ wn.zip mask := by
        have hswap : q2 = (q, true) := by
          have h2 := hq3.2
          simp only at h2
          rcases q2 with ⟨q2a, q2b⟩
          simp only at hq1 h2
          rw [hq1, h2]
        rw [← hswap]
        exact hq3.1
      exact absurd (zip_mem_snd_unique hnd q true false hq4 hp) (by simp)
    · have hskip : q ∈ pairs_skip wn mask := by
        refine List.mem_map.mpr ⟨(q, false), ?_, rfl⟩
        exact List.mem_filter.mpr ⟨hp, by simp⟩
      exact List.mem_map.mpr ⟨q, hskip, rfl⟩
  · have h := run_batches_go_sum_le
      ((submission_batches wn mask).map (fun b => b.map (fun p => p.1))) resps ⟨0, 0, 0⟩
    have hsum : (((submission_batches wn mask).map
          (fun b => b.map (fun p : Str × Note => p.1))).map List.length).sum
        = (pairs_add wn mask).length := by
      rw [List.map_map]
      have hlens : ((submission_batches wn mask).map
            (List.length ∘ fun b => b.map (fun p : Str × Note => p.1)))
          = (submission_batches wn mask).map List.length := by
        apply List.map_congr_left
        intro b _
        simp
      rw [hlens, ← List.length_flatten]
      unfold submission_batches
      rw [chunked_join]
    unfold run_totals
    rw [hsum] at h
    simpa [totalsSum] using h

theorem C5_witness :
    ((['w'] : Str) ∈ printed_skips exWn5 exMask5) ∧
    totalsSum (run_totals exWn5 exMask5 []) ≤ (pairs_add exWn5 exMask5).length :=
  ⟨((C5_rejected_not_submitted exWn5 exMask5 [] (by decide)).1
      ((['w'], exNote5), false) (by decide) rfl).2,
   (C5_rejected_not_submitted exWn5 exMask5 [] (by decide)).2⟩
